import Mathlib

/-!
Verification development for the `my-anatomy-site` repository
(`src/app/page.tsx` and its extended drag-enabled variant).

The page renders a 3D anatomical model; per-frame logic eases the model
transform and the camera between four scroll waypoints.  All numeric state
is embedded over `ℚ`.  The two source constants that are irrational in the
code (`Math.PI`, and `DRAG_SENSITIVITY = Math.PI * 1.4`) only enter the
formulas linearly, so they are kept as abstract rational parameters named
`pi` and `sens` below; every theorem quantifies over them.
-/

namespace Anatomy

/-- A 3-component vector, mirroring `THREE.Vector3` as used by the page. -/
structure Vec3 where
  x : ℚ
  y : ℚ
  z : ℚ
deriving DecidableEq, Repr

/-- One entry of `sectionTargets`: `{ camY, camZ, lookAt }`. -/
structure Waypoint where
  camY : ℚ
  camZ : ℚ
  lookAt : Vec3
deriving DecidableEq, Repr

/-! Configuration constants from the `CONFIG` block of `page.tsx`. -/

def MODEL_SCALE : ℚ := 12/10

def MODEL_Y_OFFSET : ℚ := -5/10

def ROTATION_INTENSITY : ℚ := 9/10

def VERTICAL_BOB : ℚ := 6/10

def HOVER_POINTER_ROT_MAX : ℚ := 45/100

/-- JavaScript `a || b` on numbers (`0` is falsy), used for the
`window.innerWidth || 1` style defaulting throughout the page. -/
def jsOr (a b : ℚ) : ℚ := if a = 0 then b else a

/-- `v + (target - v) * a`: the per-frame exponential easing step used for
every smoothed scalar in the page (model rotation, model Y, camera Y). -/
def easeStep (a v target : ℚ) : ℚ := v + (target - v) * a

/-- `n` repetitions of `easeStep a · target`. -/
def easeIter (a target : ℚ) : ℕ → ℚ → ℚ
  | 0, v => v
  | n + 1, v => easeIter a target n (easeStep a v target)

/-! ### ModelInstance (`useFrame` body, part_000 lines 77-100)

`pi` stands for `Math.PI`. -/

/-- The three per-frame targets computed in `ModelInstance`:
`(targetCombinedY, targetBaseRotX, targetY)` where
`targetBaseRotY = (1 - t * ROTATION_INTENSITY) * Math.PI * 0.02`,
`targetBaseRotX = (t - 0.5) * 0.06`,
`targetY = MODEL_Y_OFFSET + (0.5 - t) * VERTICAL_BOB`, and
`targetCombinedY = targetBaseRotY + pointerX * HOVER_POINTER_ROT_MAX + dragRotation`. -/
def modelTargets (pi t pointerX dragRotation : ℚ) : ℚ × ℚ × ℚ :=
  let targetBaseRotY := (1 - t * ROTATION_INTENSITY) * pi * (2/100)
  let targetBaseRotX := (t - 5/10) * (6/100)
  let targetY := MODEL_Y_OFFSET + (5/10 - t) * VERTICAL_BOB
  let pointerHoverY := pointerX * HOVER_POINTER_ROT_MAX
  let targetCombinedY := targetBaseRotY + pointerHoverY + dragRotation
  (targetCombinedY, targetBaseRotX, targetY)

/-- The eased per-frame scalar state of `ModelInstance`
(`rotYRef`, `rotXRef`, `posYRef`). -/
structure ModelEase where
  rotY : ℚ
  rotX : ℚ
  posY : ℚ
deriving DecidableEq, Repr

/-- One `useFrame` tick of `ModelInstance`: ease each ref toward its target
with rates `0.12`, `0.06`, `0.08`. -/
def modelFrame (pi t pointerX dragRotation : ℚ) (s : ModelEase) : ModelEase :=
  let tg := modelTargets pi t pointerX dragRotation
  { rotY := easeStep (12/100) s.rotY tg.1
    rotX := easeStep (6/100) s.rotX tg.2.1
    posY := easeStep (8/100) s.posY tg.2.2 }

/-! ### CameraRig waypoint interpolation (part_000 lines 155-168) -/

/-- Default waypoint used only as the `List.getD` fallback; the bound
theorems show it is never reached on the length-4 lists the page builds. -/
def dfltWp : Waypoint := ⟨0, 0, ⟨0, 0, 0⟩⟩

/-- `scaled = Math.min(Math.max(t * segments, 0), segments)` with
`segments = Math.max(1, targets.length - 1)`. -/
def camScaled (targets : List Waypoint) (t : ℚ) : ℚ :=
  let segments : ℚ := max 1 ((targets.length : ℚ) - 1)
  min (max (t * segments) 0) segments

/-- `i = Math.floor(scaled)` as a natural index (the clamp keeps it ≥ 0). -/
def camIndex (targets : List Waypoint) (t : ℚ) : ℕ :=
  (Int.floor (camScaled targets t)).toNat

/-- The camera targets computed each frame by `CameraRig`:
target vertical position `targetY` and the look-at point `(lx, ly, lz)`,
obtained by interpolating between `targets[i]` and
`targets[Math.min(i + 1, targets.length - 1)]` with local fraction
`scaled - i`. -/
def camTargetOfT (targets : List Waypoint) (t : ℚ) : ℚ × Vec3 :=
  let scaled := camScaled targets t
  let i := camIndex targets t
  let localT := scaled - (i : ℚ)
  let a := targets.getD i dfltWp
  let b := targets.getD (min (i + 1) (targets.length - 1)) dfltWp
  let targetY := a.camY + (b.camY - a.camY) * localT
  let lx := a.lookAt.x + (b.lookAt.x - a.lookAt.x) * localT
  let ly := a.lookAt.y + (b.lookAt.y - a.lookAt.y) * localT
  let lz := a.lookAt.z + (b.lookAt.z - a.lookAt.z) * localT
  (targetY, ⟨lx, ly, lz⟩)

/-! ### Spec-side restatement of the four-point blend (for the refinement
claim about the interpolator).  This follows the spec wording: scale `t` to
`s = clamp(t*3, 0, 3)`, take `i = floor(s)`, local fraction `s - i`, and
lerp waypoint `i` against waypoint `min(i+1, 3)` componentwise. -/

/-- Waypoint selector over the four fixed waypoints. -/
def wpAt (w0 w1 w2 w3 : Waypoint) : ℕ → Waypoint
  | 0 => w0
  | 1 => w1
  | 2 => w2
  | _ => w3

/-- Componentwise linear interpolation of `camY` and `lookAt` between two
waypoints at fraction `f`. -/
def lerpWp (a b : Waypoint) (f : ℚ) : ℚ × Vec3 :=
  (a.camY + (b.camY - a.camY) * f,
   ⟨a.lookAt.x + (b.lookAt.x - a.lookAt.x) * f,
    a.lookAt.y + (b.lookAt.y - a.lookAt.y) * f,
    a.lookAt.z + (b.lookAt.z - a.lookAt.z) * f⟩)

/-- The four-point piecewise-linear blend exactly as the spec words it. -/
def specFourPointBlend (w0 w1 w2 w3 : Waypoint) (t : ℚ) : ℚ × Vec3 :=
  let s := min (max (t * 3) 0) 3
  let i := (Int.floor s).toNat
  lerpWp (wpAt w0 w1 w2 w3 i) (wpAt w0 w1 w2 w3 (min (i + 1) 3)) (s - (i : ℚ))

/-! ### Scroll-measurement fallback state of `CameraRig`
(part_000 lines 113-146) -/

/-- The persistent refs of `CameraRig`: `lastDrei`, `lastChangeTime`,
`useWindowFallback`, `initialZ`.  Times are milliseconds
(`performance.now()`). -/
structure RigState where
  lastDrei : Option ℚ
  lastChangeTime : ℚ
  useWindowFallback : Bool
  initialZ : Option ℚ
deriving DecidableEq, Repr

/-- The fallback bookkeeping run at the top of each `CameraRig` frame:
record the first drei offset; on a change of more than `1e-5` leave
fallback mode and restamp the change time; otherwise enter fallback mode
when more than 300 ms have passed since the last change AND the offset is
within `1e-6` of zero. -/
def rigUpdateFallback (s : RigState) (dreiOffset now : ℚ) : RigState :=
  match s.lastDrei with
  | none => { s with lastDrei := some dreiOffset, lastChangeTime := now }
  | some last =>
    if |dreiOffset - last| > 1/100000 then
      { s with useWindowFallback := false, lastDrei := some dreiOffset,
               lastChangeTime := now }
    else if now - s.lastChangeTime > 300 ∧ |dreiOffset| < 1/1000000 then
      { s with useWindowFallback := true }
    else s

/-- Window-scroll normalization used by the fallback path, `ScrollOverlay`
and `ScrollBadge`:
`clamp(scrollY / Math.max(1, docH - winH), 0, 1)`. -/
def normalizeScroll (scrollY docH winH : ℚ) : ℚ :=
  let maxScroll := max 1 (docH - winH)
  min (max (scrollY / maxScroll) 0) 1

/-- The same normalization including the `||` defaulting of the raw browser
readings: `scrollY || pageYOffset || 0`,
`docElScrollH || bodyScrollH || 1`, `innerHeight || 1`. -/
def normalizeScrollRaw (scrollY pageYOffset docElH bodyH winH : ℚ) : ℚ :=
  normalizeScroll (jsOr scrollY (jsOr pageYOffset 0))
    (jsOr docElH (jsOr bodyH 1)) (jsOr winH 1)

/-- JavaScript `Math.round` (round half up) on a rational. -/
def jsRound (q : ℚ) : ℤ := Int.floor (q + 5/10)

/-- The integer percentage shown by `ScrollBadge`:
`Math.round(scrolled * 100)`. -/
def scrollBadgePercent (scrollY pageYOffset docElH bodyH winH : ℚ) : ℤ :=
  jsRound (normalizeScrollRaw scrollY pageYOffset docElH bodyH winH * 100)

/-! ### Bounding box (`useModelBBox`, part_000 lines 30-57)

The loaded scene is abstracted as the list of its vertex positions; the
effect clones it, applies `scale.setScalar(MODEL_SCALE)` and takes the
`THREE.Box3` of the result (componentwise min/max over all points), with
`getSize = max - min` and `getCenter = (min + max) / 2`. -/

/-- Uniform scaling of a point, as `scale.setScalar MODEL_SCALE` acts on
every vertex position. -/
def scalePoint (k : ℚ) (p : Vec3) : Vec3 := ⟨k * p.x, k * p.y, k * p.z⟩

/-- Componentwise minimum (Box3 expansion). -/
def vmin (a b : Vec3) : Vec3 := ⟨min a.x b.x, min a.y b.y, min a.z b.z⟩

/-- Componentwise maximum (Box3 expansion). -/
def vmax (a b : Vec3) : Vec3 := ⟨max a.x b.x, max a.y b.y, max a.z b.z⟩

/-- The cached derived bounding box: `min`, `max`, `center`, `size`,
`height = size.y`. -/
structure BBoxQ where
  min : Vec3
  max : Vec3
  center : Vec3
  size : Vec3
  height : ℚ
deriving DecidableEq, Repr

/-- `useModelBBox`: scale every scene point by `MODEL_SCALE`, take the
axis-aligned box of the result, and record size, center and height.
Returns `none` for an empty point set (no loaded geometry). -/
def computeBBox (pts : List Vec3) : Option BBoxQ :=
  match pts.map (scalePoint MODEL_SCALE) with
  | [] => none
  | q :: qs =>
    let mn := qs.foldl vmin q
    let mx := qs.foldl vmax q
    let size : Vec3 := ⟨mx.x - mn.x, mx.y - mn.y, mx.z - mn.z⟩
    let center : Vec3 := ⟨(mn.x + mx.x) / 2, (mn.y + mx.y) / 2, (mn.z + mx.z) / 2⟩
    some ⟨mn, mx, center, size, size.y⟩

/-! ### Section targets (`SceneWithAutoTargets`, part_000 lines 217-243) -/

/-- The `useMemo` that derives the four camera waypoints from the bounding
box. -/
def sectionTargetsOfBBox (b : BBoxQ) : List Waypoint :=
  let topY := b.max.y
  let bottomY := b.min.y
  let centerY := b.center.y
  let height := jsOr b.height (max 1 (topY - bottomY))
  let baseZ := max 3 (height * 3)
  let headCamY := topY + height * (15/100)
  let headLookAt : Vec3 := ⟨0, topY - height * (8/100), 0⟩
  let torsoCamY := centerY + height * (15/100)
  let torsoLookAt : Vec3 := ⟨0, centerY + height * (2/100), 0⟩
  let armsCamY := centerY - height * (20/100)
  let armsLookAt : Vec3 := ⟨0, centerY - height * (25/100), 0⟩
  let legsCamY := bottomY + height * (25/100)
  let legsLookAt : Vec3 := ⟨0, bottomY + height * (15/100), 0⟩
  [⟨headCamY + MODEL_Y_OFFSET, baseZ * (9/10), headLookAt⟩,
   ⟨torsoCamY + MODEL_Y_OFFSET, baseZ * (75/100), torsoLookAt⟩,
   ⟨armsCamY + MODEL_Y_OFFSET, baseZ * (65/100), armsLookAt⟩,
   ⟨legsCamY + MODEL_Y_OFFSET, baseZ * (55/100), legsLookAt⟩]

/-- The hard-coded waypoints `CameraRig` substitutes when
`sectionTargets` is null (`sectionTargets ?? [...]`). -/
def defaultTargets (initialZ : ℚ) : List Waypoint :=
  [⟨16/10, initialZ, ⟨0, 9/10, 0⟩⟩,
   ⟨6/10, initialZ, ⟨0, 2/10, 0⟩⟩,
   ⟨-6/10, initialZ, ⟨0, -6/10, 0⟩⟩,
   ⟨-2, initialZ, ⟨0, -18/10, 0⟩⟩]

/-! ### The full CameraRig frame (part_000 lines 118-173) -/

/-- The mutable camera transform the rig touches: `position.y`,
`position.z`, and the argument last passed to `camera.lookAt`. -/
structure CamState where
  y : ℚ
  z : ℚ
  lookTarget : Vec3
deriving DecidableEq, Repr

/-- Combined `CameraRig` state: refs plus camera transform. -/
structure CamRigState where
  rig : RigState
  cam : CamState
deriving DecidableEq, Repr

/-- The per-frame browser readings `CameraRig` consumes. -/
structure FrameInput where
  dreiOffset : ℚ
  now : ℚ
  winScrollY : ℚ
  winPageYOffset : ℚ
  winDocElH : ℚ
  winBodyH : ℚ
  winWinH : ℚ
deriving DecidableEq, Repr

/-- One `useFrame` tick of `CameraRig`: capture `initialZ` on the first
frame, run the fallback bookkeeping, pick the scroll fraction from drei
or from the window fallback, resolve the waypoint list
(`sectionTargets ?? defaults`), interpolate, ease `position.y` at rate
`0.12`, pin `position.z` to `initialZ`, and look at the interpolated
point. -/
def cameraRigFrame (sectionTargets : Option (List Waypoint))
    (s : CamRigState) (inp : FrameInput) : CamRigState :=
  let initialZ := s.rig.initialZ.getD s.cam.z
  let rig1 := { s.rig with initialZ := some initialZ }
  let rig2 := rigUpdateFallback rig1 inp.dreiOffset inp.now
  let t := if rig2.useWindowFallback then
      normalizeScrollRaw inp.winScrollY inp.winPageYOffset inp.winDocElH
        inp.winBodyH inp.winWinH
    else inp.dreiOffset
  let targets := sectionTargets.getD (defaultTargets initialZ)
  let tgt := camTargetOfT targets t
  { rig := rig2
    cam := { y := easeStep (12/100) s.cam.y tgt.1
             z := initialZ
             lookTarget := tgt.2 } }

/-- Run `CameraRig` over a sequence of frames. -/
def runFrames (sectionTargets : Option (List Waypoint))
    (s : CamRigState) : List FrameInput → CamRigState
  | [] => s
  | inp :: rest => runFrames sectionTargets (cameraRigFrame sectionTargets s inp) rest

/-! ### Scene rendering (`SceneWithAutoTargets`, part_000 lines 249-258) -/

/-- What the `Suspense` region of the scene shows. -/
inductive SceneContent where
  | loading
  | model
deriving DecidableEq, Repr

/-- `{gltf && <ModelInstance .../>}` inside
`<Suspense fallback={loading}>`: the loading placeholder while the asset
is absent, the model instance once it is present. -/
def sceneFor (gltf : Option (List Vec3)) : SceneContent :=
  match gltf with
  | none => SceneContent.loading
  | some _ => SceneContent.model

/-! ### Whole-page per-frame state (for the cached-bounding-box claim) -/

/-- All mutable state a visual frame touches, plus the cached bounding
box. -/
structure AppState where
  bbox : Option BBoxQ
  model : ModelEase
  camRig : CamRigState
deriving DecidableEq, Repr

/-- One whole visual frame: `ModelInstance` and `CameraRig` both run;
the bounding box is only read (to derive `sectionTargets`), never
recomputed or written. -/
def appFrame (pi pointerX dragRotation : ℚ) (s : AppState)
    (inp : FrameInput) : AppState :=
  { bbox := s.bbox
    model := modelFrame pi inp.dreiOffset pointerX dragRotation s.model
    camRig := cameraRigFrame (s.bbox.map sectionTargetsOfBBox) s.camRig inp }

/-! ### Drag state machine (`Page`, part_000 lines 344-439)

`sens` stands for `DRAG_SENSITIVITY = Math.PI * 1.4`. -/

/-- The drag-related state of `Page`: `draggingRef`, `lastXRef`,
`dragRotation`, `pointerX`. -/
structure DragState where
  dragging : Bool
  lastX : Option ℚ
  dragRotation : ℚ
  pointerX : ℚ
deriving DecidableEq, Repr

/-- The DOM events `Page` listens to, with the coordinates they carry
(`winW` is `window.innerWidth` at handling time; touch events carry the
`clientX` of each active touch). -/
inductive InputEvent where
  | mousemove (clientX winW : ℚ)
  | touchmove (touches : List ℚ) (winW : ℚ)
  | pointerdown (clientX : ℚ)
  | pointermove (clientX winW : ℚ)
  | pointerup
  | pointercancel
  | touchstart (touches : List ℚ)
  | touchend
deriving DecidableEq, Repr

/-- The shared tail of `handleMouseMove` / `handleTouchMoveHover`: update
`pointerX` to the clamped normalized position, then, if dragging with a
recorded `lastX`, advance `dragRotation` by `(x - lastX) / w * sens`. -/
def hoverMove (sens : ℚ) (s : DragState) (x winW : ℚ) : DragState :=
  let w := jsOr winW 1
  let nx := min (max ((x / w) * 2 - 1) (-1)) 1
  let s1 := { s with pointerX := nx }
  match s.lastX with
  | some lx =>
    if s.dragging then
      { s1 with lastX := some x,
                dragRotation := s1.dragRotation + (x - lx) / w * sens }
    else s1
  | none => s1

/-- Event dispatch of `Page`: the two hover handlers, the pointer-capture
drag handlers, and the touch drag handlers. -/
def handleEvent (sens : ℚ) (s : DragState) : InputEvent → DragState
  | InputEvent.mousemove x winW => hoverMove sens s x winW
  | InputEvent.touchmove touches winW =>
    match touches with
    | [] => s
    | x :: _ => hoverMove sens s x winW
  | InputEvent.pointerdown x => { s with dragging := true, lastX := some x }
  | InputEvent.pointermove x winW =>
    if s.dragging then
      let w := jsOr winW 1
      let lx := s.lastX.getD x
      { s with lastX := some x,
               dragRotation := s.dragRotation + (x - lx) / w * sens }
    else s
  | InputEvent.pointerup => { s with dragging := false, lastX := none }
  | InputEvent.pointercancel => { s with dragging := false, lastX := none }
  | InputEvent.touchstart touches =>
    match touches with
    | [] => s
    | x :: _ => { s with dragging := true, lastX := some x }
  | InputEvent.touchend => { s with dragging := false, lastX := none }

/-! ## Theorems -/

/-- Reduction of `camScaled` on a four-element waypoint list. -/
theorem camScaled_four (w0 w1 w2 w3 : Waypoint) (t : ℚ) :
    camScaled [w0, w1, w2, w3] t = min (max (t * 3) 0) 3 := by
  norm_num [camScaled]

/-- Bounds on the clamped scaled scroll value. -/
theorem clamp3_bounds (u : ℚ) :
    0 ≤ min (max (u * 3) 0) 3 ∧ min (max (u * 3) 0) 3 ≤ 3 :=
  ⟨le_min (le_max_right _ _) (by norm_num), min_le_right _ _⟩

/-- C3: at scroll fraction `t = 0` the camera target produced by the
waypoint interpolator is exactly the first (head) waypoint: target
vertical position `camY` of waypoint 0, look-at point equal to waypoint
0's `lookAt`. -/
theorem scroll_zero_head_target (w0 w1 w2 w3 : Waypoint) :
    camTargetOfT [w0, w1, w2, w3] 0 = (w0.camY, w0.lookAt) := by
  simp [camTargetOfT, camIndex, camScaled_four, dfltWp]

/-- C1: on every scroll fraction `t ∈ [0, 1]` and every four waypoints,
the camera interpolator of `CameraRig` computes exactly the four-point
piecewise-linear blend described by the spec: scale `t` to
`s = clamp(t*3, 0, 3)`, take segment `i = floor(s)` and local fraction
`s - i`, and lerp waypoint `i` against waypoint `min(i+1, 3)`
componentwise in `camY` and `lookAt`. -/
theorem camera_blend_is_four_point_blend (w0 w1 w2 w3 : Waypoint) (t : ℚ)
    (ht0 : 0 ≤ t) (ht1 : t ≤ 1) :
    camTargetOfT [w0, w1, w2, w3] t = specFourPointBlend w0 w1 w2 w3 t := by
  have hb := clamp3_bounds t
  have hfl0 : 0 ≤ Int.floor (min (max (t * 3) 0) 3) :=
    Int.floor_nonneg.mpr hb.1
  have hfl3 : Int.floor (min (max (t * 3) 0) 3) ≤ 3 := by
    have h := Int.floor_le_floor (α := ℚ) hb.2
    simpa using h
  have hcases : (Int.floor (min (max (t * 3) 0) 3)).toNat = 0 ∨
      (Int.floor (min (max (t * 3) 0) 3)).toNat = 1 ∨
      (Int.floor (min (max (t * 3) 0) 3)).toNat = 2 ∨
      (Int.floor (min (max (t * 3) 0) 3)).toNat = 3 := by omega
  rcases hcases with h | h | h | h <;>
    simp [camTargetOfT, camIndex, camScaled_four, specFourPointBlend,
      lerpWp, wpAt, h, dfltWp]

/-- Concrete instance of the four-point blend refinement at `t = 1/2`. -/
theorem camera_blend_is_four_point_blend_witness :
    camTargetOfT [⟨1, 4, ⟨0, 2, 0⟩⟩, ⟨3, 4, ⟨0, 5, 0⟩⟩,
        ⟨7, 4, ⟨0, 11, 0⟩⟩, ⟨13, 4, ⟨0, 17, 0⟩⟩] (1/2) =
      specFourPointBlend ⟨1, 4, ⟨0, 2, 0⟩⟩ ⟨3, 4, ⟨0, 5, 0⟩⟩
        ⟨7, 4, ⟨0, 11, 0⟩⟩ ⟨13, 4, ⟨0, 17, 0⟩⟩ (1/2) :=
  camera_blend_is_four_point_blend _ _ _ _ (1/2) (by norm_num) (by norm_num)

/-- C4: two `ModelInstance` frames that differ only in `pointerX` and
`dragRotation` (same scroll offset `t`, same previous eased state) produce
the same X-axis rotation target, the same vertical position target, the
same eased X rotation and eased vertical position; only the Y-axis
rotation target differs, by exactly
`(pointerX' - pointerX) * 0.45 + (dragRotation' - dragRotation)`. -/
theorem pointer_drag_rotate_only_horizontal
    (pi t px px' d d' : ℚ) (s : ModelEase) :
    (modelTargets pi t px' d').2.1 = (modelTargets pi t px d).2.1 ∧
    (modelTargets pi t px' d').2.2 = (modelTargets pi t px d).2.2 ∧
    (modelFrame pi t px' d' s).rotX = (modelFrame pi t px d s).rotX ∧
    (modelFrame pi t px' d' s).posY = (modelFrame pi t px d s).posY ∧
    (modelTargets pi t px' d').1 - (modelTargets pi t px d).1 =
      (px' - px) * (45/100) + (d' - d) := by
  refine ⟨rfl, rfl, rfl, rfl, ?_⟩
  simp only [modelTargets, HOVER_POINTER_ROT_MAX]
  ring

/-- Algebraic form of one easing step. -/
theorem easeStep_sub (a v tgt : ℚ) :
    easeStep a v tgt - tgt = (v - tgt) * (1 - a) := by
  simp only [easeStep]; ring

/-- Algebraic form of `n` easing steps. -/
theorem easeIter_sub (a tgt : ℚ) (n : ℕ) (v : ℚ) :
    easeIter a tgt n v - tgt = (v - tgt) * (1 - a) ^ n := by
  induction n generalizing v with
  | zero => simp [easeIter]
  | succ n ih =>
    rw [easeIter, ih, easeStep_sub]
    ring

/-- C5: for each easing rate the page uses (`0.12` for model Y rotation
and camera Y, `0.06` for model X rotation, `0.08` for model vertical
offset) and any fixed target, one step contracts the distance to the
target by the exact factor `1 - a`, so the distance strictly decreases
whenever the value differs from the target, and iterating the step brings
the value within any positive tolerance of the target. -/
theorem easing_step_converges (a v tgt : ℚ)
    (ha : a = 12/100 ∨ a = 6/100 ∨ a = 8/100) :
    |easeStep a v tgt - tgt| = (1 - a) * |v - tgt| ∧
    (v ≠ tgt → |easeStep a v tgt - tgt| < |v - tgt|) ∧
    (∀ ε : ℚ, 0 < ε → ∃ n : ℕ, |easeIter a tgt n v - tgt| < ε) := by
  have ha01 : 0 < a ∧ a < 1 := by
    rcases ha with rfl | rfl | rfl <;> norm_num
  have h1a0 : (0 : ℚ) ≤ 1 - a := by linarith [ha01.2]
  have habs : |easeStep a v tgt - tgt| = (1 - a) * |v - tgt| := by
    rw [easeStep_sub, abs_mul, abs_of_nonneg h1a0, mul_comm]
  refine ⟨habs, ?_, ?_⟩
  · intro hv
    have hvt : 0 < |v - tgt| := abs_pos.mpr (sub_ne_zero.mpr hv)
    rw [habs]
    calc (1 - a) * |v - tgt| < 1 * |v - tgt| := by
          exact mul_lt_mul_of_pos_right (by linarith [ha01.1]) hvt
      _ = |v - tgt| := one_mul _
  · intro ε hε
    by_cases hv : v = tgt
    · exact ⟨0, by simpa [easeIter, hv] using hε⟩
    · have hvt : 0 < |v - tgt| := abs_pos.mpr (sub_ne_zero.mpr hv)
      obtain ⟨n, hn⟩ := exists_pow_lt_of_lt_one (div_pos hε hvt)
        (show (1 : ℚ) - a < 1 by linarith [ha01.1])
      refine ⟨n, ?_⟩
      rw [easeIter_sub, abs_mul, abs_pow, abs_of_nonneg h1a0]
      calc |v - tgt| * (1 - a) ^ n < |v - tgt| * (ε / |v - tgt|) :=
            mul_lt_mul_of_pos_left hn hvt
        _ = ε := by field_simp

/-- Concrete instance of the easing contraction at rate `0.12`, start `5`,
target `3`. -/
theorem easing_step_converges_witness :
    |easeStep (12/100) 5 3 - 3| = (1 - 12/100) * |(5 : ℚ) - 3| ∧
    |easeStep (12/100) 5 3 - 3| < |(5 : ℚ) - 3| ∧
    ∃ n : ℕ, |easeIter (12/100) 3 n 5 - 3| < 1/1000 :=
  ⟨(easing_step_converges (12/100) 5 3 (Or.inl rfl)).1,
   (easing_step_converges (12/100) 5 3 (Or.inl rfl)).2.1 (by norm_num),
   (easing_step_converges (12/100) 5 3 (Or.inl rfl)).2.2 (1/1000) (by norm_num)⟩

/-- C2 (counterexample): a drei offset stuck at `0.5` for 400 ms — idle
for more than the 300 ms timeout and unchanged well within `1e-5` — does
NOT trigger the window fallback, because the code additionally requires
the offset to be within `1e-6` of zero. -/
theorem fallback_not_on_idle_alone :
    (400 : ℚ) - 0 > 300 ∧
    |(1/2 : ℚ) - 1/2| ≤ 1/100000 ∧
    (rigUpdateFallback ⟨some (1/2), 0, false, some 4⟩ (1/2) 400).useWindowFallback
      = false := by
  refine ⟨by norm_num, by norm_num, ?_⟩
  norm_num [rigUpdateFallback, abs_of_nonneg (show (0 : ℚ) ≤ 1/2 by norm_num)]

/-- C2 (amended): once a drei offset has been recorded, a frame leaves
the rig in window-fallback mode exactly when the offset is within `1e-5`
of the last recorded value AND (more than 300 ms have elapsed since the
last recorded change AND the offset is within `1e-6` of zero, or the
fallback was already on); and a change of more than `1e-5` from the last
recorded value always switches the fallback off. -/
theorem fallback_iff_idle_and_near_zero (s : RigState) (last d now : ℚ)
    (h : s.lastDrei = some last) :
    ((rigUpdateFallback s d now).useWindowFallback = true ↔
      |d - last| ≤ 1/100000 ∧
        ((now - s.lastChangeTime > 300 ∧ |d| < 1/1000000) ∨
          s.useWindowFallback = true)) ∧
    (|d - last| > 1/100000 →
      (rigUpdateFallback s d now).useWindowFallback = false) := by
  constructor
  · simp only [rigUpdateFallback, h]
    split_ifs with h1 h2
    · simp only [Bool.false_eq_true, false_iff]
      rintro ⟨hle, _⟩
      exact absurd h1 (not_lt.mpr hle)
    · simp only [true_iff]
      exact ⟨not_lt.mp h1, Or.inl h2⟩
    · constructor
      · intro hb
        exact ⟨not_lt.mp h1, Or.inr hb⟩
      · rintro ⟨_, h3 | hb⟩
        · exact absurd h3 h2
        · exact hb
  · intro h1
    simp only [rigUpdateFallback, h]
    rw [if_pos h1]

/-- Concrete instance of the fallback characterization: offset pinned to
zero with a recorded value of zero and 400 ms of idleness. -/
theorem fallback_iff_idle_and_near_zero_witness :
    ((rigUpdateFallback ⟨some 0, 0, false, none⟩ 0 400).useWindowFallback = true ↔
      |(0 : ℚ) - 0| ≤ 1/100000 ∧
        (((400 : ℚ) - 0 > 300 ∧ |(0 : ℚ)| < 1/1000000) ∨ false = true)) ∧
    (|(0 : ℚ) - 0| > 1/100000 →
      (rigUpdateFallback ⟨some 0, 0, false, none⟩ 0 400).useWindowFallback = false) :=
  fallback_iff_idle_and_near_zero ⟨some 0, 0, false, none⟩ 0 0 400 rfl

/-- C6: the drag machinery of `Page` has exactly the two states of the
`dragging` flag: `pointerdown` (and `touchstart` with at least one touch)
sets the flag; `pointerup`, `pointercancel` and `touchend` clear it and
clear the remembered X position; every move event leaves `dragRotation`
unchanged when the flag is off; and when the flag is on with a recorded
`lastX`, a move to `x` advances `dragRotation` by exactly
`(x - lastX) / windowWidth * DRAG_SENSITIVITY`. -/
theorem drag_state_machine (sens : ℚ) :
    (∀ s x, (handleEvent sens s (InputEvent.pointerdown x)).dragging = true) ∧
    (∀ s ts, ts ≠ [] →
      (handleEvent sens s (InputEvent.touchstart ts)).dragging = true) ∧
    (∀ s, (handleEvent sens s InputEvent.pointerup).dragging = false ∧
      (handleEvent sens s InputEvent.pointerup).lastX = none) ∧
    (∀ s, (handleEvent sens s InputEvent.pointercancel).dragging = false ∧
      (handleEvent sens s InputEvent.pointercancel).lastX = none) ∧
    (∀ s, (handleEvent sens s InputEvent.touchend).dragging = false ∧
      (handleEvent sens s InputEvent.touchend).lastX = none) ∧
    (∀ s x w, s.dragging = false →
      (handleEvent sens s (InputEvent.mousemove x w)).dragRotation =
        s.dragRotation ∧
      (handleEvent sens s (InputEvent.pointermove x w)).dragRotation =
        s.dragRotation) ∧
    (∀ s ts w, s.dragging = false →
      (handleEvent sens s (InputEvent.touchmove ts w)).dragRotation =
        s.dragRotation) ∧
    (∀ s x w lx, s.dragging = true → s.lastX = some lx →
      (handleEvent sens s (InputEvent.mousemove x w)).dragRotation =
        s.dragRotation + (x - lx) / jsOr w 1 * sens ∧
      (handleEvent sens s (InputEvent.pointermove x w)).dragRotation =
        s.dragRotation + (x - lx) / jsOr w 1 * sens) ∧
    (∀ s x rest w lx, s.dragging = true → s.lastX = some lx →
      (handleEvent sens s (InputEvent.touchmove (x :: rest) w)).dragRotation =
        s.dragRotation + (x - lx) / jsOr w 1 * sens) := by
  refine ⟨?_, ?_, ?_, ?_, ?_, ?_, ?_, ?_, ?_⟩
  · intro s x; simp [handleEvent]
  · intro s ts h
    cases ts with
    | nil => exact absurd rfl h
    | cons x rest => simp [handleEvent]
  · intro s; exact ⟨rfl, rfl⟩
  · intro s; exact ⟨rfl, rfl⟩
  · intro s; exact ⟨rfl, rfl⟩
  · intro s x w h
    constructor
    · cases hl : s.lastX <;> simp [handleEvent, hoverMove, h, hl]
    · simp [handleEvent, h]
  · intro s ts w h
    cases ts with
    | nil => rfl
    | cons x rest =>
      cases hl : s.lastX <;> simp [handleEvent, hoverMove, h, hl]
  · intro s x w lx hd hl
    constructor
    · simp [handleEvent, hoverMove, hd, hl]
    · simp [handleEvent, hd, hl]
  · intro s x rest w lx hd hl
    simp [handleEvent, hoverMove, hd, hl]

/-- Concrete instances of the drag state machine clauses: a pointerdown,
a one-finger touchstart, a dragging mousemove, and a non-dragging
mousemove. -/
theorem drag_state_machine_witness :
    (handleEvent 1 ⟨false, none, 0, 0⟩ (InputEvent.pointerdown 5)).dragging
      = true ∧
    (handleEvent 1 ⟨false, none, 0, 0⟩ (InputEvent.touchstart [3])).dragging
      = true ∧
    (handleEvent 1 ⟨true, some 3, 2, 0⟩ (InputEvent.mousemove 7 10)).dragRotation
      = 2 + (7 - 3) / jsOr 10 1 * 1 ∧
    (handleEvent 1 ⟨false, some 3, 2, 0⟩ (InputEvent.mousemove 7 10)).dragRotation
      = 2 :=
  ⟨(drag_state_machine 1).1 _ 5,
   (drag_state_machine 1).2.1 _ [3] (by simp),
   ((drag_state_machine 1).2.2.2.2.2.2.2.1 _ 7 10 3 rfl rfl).1,
   ((drag_state_machine 1).2.2.2.2.2.1 _ 7 10 rfl).1⟩

/-! ### Helper lemmas for the bounding box -/

/-- A `min`-fold is below its initial value. -/
theorem foldl_min_le_init (l : List ℚ) (a : ℚ) : l.foldl min a ≤ a := by
  induction l generalizing a with
  | nil => exact le_refl a
  | cons b bs ih => exact le_trans (ih (min a b)) (min_le_left a b)

/-- A `min`-fold is below every list element. -/
theorem foldl_min_le_mem (l : List ℚ) (a b : ℚ) (hb : b ∈ l) :
    l.foldl min a ≤ b := by
  induction l generalizing a with
  | nil => cases hb
  | cons c cs ih =>
    rcases List.mem_cons.mp hb with rfl | h
    · exact le_trans (foldl_min_le_init cs (min a b)) (min_le_right a b)
    · exact ih (min a c) h

/-- A `min`-fold is attained by the initial value or a list element. -/
theorem foldl_min_attained (l : List ℚ) (a : ℚ) :
    l.foldl min a = a ∨ l.foldl min a ∈ l := by
  induction l generalizing a with
  | nil => exact Or.inl rfl
  | cons b bs ih =>
    rw [List.foldl_cons]
    rcases ih (min a b) with h | h
    · rcases min_cases a b with ⟨hm, _⟩ | ⟨hm, _⟩
      · exact Or.inl (by rw [h, hm])
      · exact Or.inr (by rw [h, hm]; exact List.mem_cons_self b bs)
    · exact Or.inr (List.mem_cons_of_mem b h)

/-- A `max`-fold is above its initial value. -/
theorem le_foldl_max_init (l : List ℚ) (a : ℚ) : a ≤ l.foldl max a := by
  induction l generalizing a with
  | nil => exact le_refl a
  | cons b bs ih => exact le_trans (le_max_left a b) (ih (max a b))

/-- A `max`-fold is above every list element. -/
theorem le_foldl_max_mem (l : List ℚ) (a b : ℚ) (hb : b ∈ l) :
    b ≤ l.foldl max a := by
  induction l generalizing a with
  | nil => cases hb
  | cons c cs ih =>
    rcases List.mem_cons.mp hb with rfl | h
    · exact le_trans (le_max_right a b) (le_foldl_max_init cs (max a b))
    · exact ih (max a c) h

/-- A `max`-fold is attained by the initial value or a list element. -/
theorem foldl_max_attained (l : List ℚ) (a : ℚ) :
    l.foldl max a = a ∨ l.foldl max a ∈ l := by
  induction l generalizing a with
  | nil => exact Or.inl rfl
  | cons b bs ih =>
    rw [List.foldl_cons]
    rcases ih (max a b) with h | h
    · rcases max_cases a b with ⟨hm, _⟩ | ⟨hm, _⟩
      · exact Or.inl (by rw [h, hm])
      · exact Or.inr (by rw [h, hm]; exact List.mem_cons_self b bs)
    · exact Or.inr (List.mem_cons_of_mem b h)

/-- Componentwise view of a `vmin`-fold. -/
theorem foldl_vmin_comp (f : Vec3 → ℚ)
    (hf : ∀ a b, f (vmin a b) = min (f a) (f b))
    (qs : List Vec3) (q : Vec3) :
    f (qs.foldl vmin q) = (qs.map f).foldl min (f q) := by
  induction qs generalizing q with
  | nil => rfl
  | cons p ps ih => simp [List.foldl_cons, ih, hf]

/-- Componentwise view of a `vmax`-fold. -/
theorem foldl_vmax_comp (f : Vec3 → ℚ)
    (hf : ∀ a b, f (vmax a b) = max (f a) (f b))
    (qs : List Vec3) (q : Vec3) :
    f (qs.foldl vmax q) = (qs.map f).foldl max (f q) := by
  induction qs generalizing q with
  | nil => rfl
  | cons p ps ih => simp [List.foldl_cons, ih, hf]

/-- Membership in the axis-aligned box `[b.min, b.max]`. -/
def inBox (b : BBoxQ) (q : Vec3) : Prop :=
  b.min.x ≤ q.x ∧ q.x ≤ b.max.x ∧
  b.min.y ≤ q.y ∧ q.y ≤ b.max.y ∧
  b.min.z ≤ q.z ∧ q.z ≤ b.max.z

instance (b : BBoxQ) (q : Vec3) : Decidable (inBox b q) := by
  unfold inBox; infer_instance

/-- Every face of the box is attained by some point of `qs`, i.e. the box
is the tight axis-aligned bounding box of `qs`. -/
def touchesFaces (b : BBoxQ) (qs : List Vec3) : Prop :=
  (∃ q ∈ qs, q.x = b.min.x) ∧ (∃ q ∈ qs, q.x = b.max.x) ∧
  (∃ q ∈ qs, q.y = b.min.y) ∧ (∃ q ∈ qs, q.y = b.max.y) ∧
  (∃ q ∈ qs, q.z = b.min.z) ∧ (∃ q ∈ qs, q.z = b.max.z)

instance (b : BBoxQ) (qs : List Vec3) : Decidable (touchesFaces b qs) := by
  unfold touchesFaces; infer_instance

/-- A `vmin`-fold is below every point of `q :: qs` in any coordinate. -/
theorem vmin_fold_le_comp (f : Vec3 → ℚ)
    (hf : ∀ a b, f (vmin a b) = min (f a) (f b))
    (qs : List Vec3) (q r : Vec3) (hr : r ∈ q :: qs) :
    f (qs.foldl vmin q) ≤ f r := by
  rw [foldl_vmin_comp f hf]
  rcases List.mem_cons.mp hr with rfl | h
  · exact foldl_min_le_init _ _
  · exact foldl_min_le_mem _ _ _ (List.mem_map_of_mem f h)

/-- A `vmax`-fold is above every point of `q :: qs` in any coordinate. -/
theorem vmax_fold_ge_comp (f : Vec3 → ℚ)
    (hf : ∀ a b, f (vmax a b) = max (f a) (f b))
    (qs : List Vec3) (q r : Vec3) (hr : r ∈ q :: qs) :
    f r ≤ f (qs.foldl vmax q) := by
  rw [foldl_vmax_comp f hf]
  rcases List.mem_cons.mp hr with rfl | h
  · exact le_foldl_max_init _ _
  · exact le_foldl_max_mem _ _ _ (List.mem_map_of_mem f h)

/-- Each coordinate of a `vmin`-fold is attained by a point of `q :: qs`. -/
theorem vmin_fold_attained_comp (f : Vec3 → ℚ)
    (hf : ∀ a b, f (vmin a b) = min (f a) (f b))
    (qs : List Vec3) (q : Vec3) :
    ∃ r ∈ q :: qs, f r = f (qs.foldl vmin q) := by
  rw [foldl_vmin_comp f hf]
  rcases foldl_min_attained (qs.map f) (f q) with h | h
  · exact ⟨q, List.mem_cons_self _ _, h.symm⟩
  · obtain ⟨r, hr, hfr⟩ := List.mem_map.mp h
    exact ⟨r, List.mem_cons_of_mem _ hr, hfr⟩

/-- Each coordinate of a `vmax`-fold is attained by a point of `q :: qs`. -/
theorem vmax_fold_attained_comp (f : Vec3 → ℚ)
    (hf : ∀ a b, f (vmax a b) = max (f a) (f b))
    (qs : List Vec3) (q : Vec3) :
    ∃ r ∈ q :: qs, f r = f (qs.foldl vmax q) := by
  rw [foldl_vmax_comp f hf]
  rcases foldl_max_attained (qs.map f) (f q) with h | h
  · exact ⟨q, List.mem_cons_self _ _, h.symm⟩
  · obtain ⟨r, hr, hfr⟩ := List.mem_map.mp h
    exact ⟨r, List.mem_cons_of_mem _ hr, hfr⟩

/-- C7: the derived bounding box is a pure function of the loaded scene,
cached outside the frame loop: a whole visual frame leaves it untouched;
and its fields are exactly the tight axis-aligned bounding box of the
scene after uniform scaling by `MODEL_SCALE`, with
`size = max - min`, `center = (min + max) / 2` and `height = size.y`. -/
theorem bbox_cached_and_tight (pi px dr : ℚ) (s : AppState)
    (inp : FrameInput) (pts : List Vec3) (b : BBoxQ)
    (hb : computeBBox pts = some b) :
    (appFrame pi px dr s inp).bbox = s.bbox ∧
    b.size = ⟨b.max.x - b.min.x, b.max.y - b.min.y, b.max.z - b.min.z⟩ ∧
    b.center = ⟨(b.min.x + b.max.x) / 2, (b.min.y + b.max.y) / 2,
      (b.min.z + b.max.z) / 2⟩ ∧
    b.height = b.size.y ∧
    (∀ p ∈ pts, inBox b (scalePoint MODEL_SCALE p)) ∧
    touchesFaces b (pts.map (scalePoint MODEL_SCALE)) := by
  refine ⟨rfl, ?_⟩
  cases hpts : pts.map (scalePoint MODEL_SCALE) with
  | nil =>
    rw [computeBBox, hpts] at hb
    cases hb
  | cons q qs =>
    rw [computeBBox, hpts] at hb
    simp only [Option.some.injEq] at hb
    subst hb
    refine ⟨rfl, rfl, rfl, ?_, ?_⟩
    · intro p hp
      have hm : scalePoint MODEL_SCALE p ∈ q :: qs := by
        rw [← hpts]
        exact List.mem_map_of_mem _ hp
      exact ⟨vmin_fold_le_comp Vec3.x (fun a b => rfl) qs q _ hm,
        vmax_fold_ge_comp Vec3.x (fun a b => rfl) qs q _ hm,
        vmin_fold_le_comp Vec3.y (fun a b => rfl) qs q _ hm,
        vmax_fold_ge_comp Vec3.y (fun a b => rfl) qs q _ hm,
        vmin_fold_le_comp Vec3.z (fun a b => rfl) qs q _ hm,
        vmax_fold_ge_comp Vec3.z (fun a b => rfl) qs q _ hm⟩
    · exact ⟨vmin_fold_attained_comp Vec3.x (fun a b => rfl) qs q,
        vmax_fold_attained_comp Vec3.x (fun a b => rfl) qs q,
        vmin_fold_attained_comp Vec3.y (fun a b => rfl) qs q,
        vmax_fold_attained_comp Vec3.y (fun a b => rfl) qs q,
        vmin_fold_attained_comp Vec3.z (fun a b => rfl) qs q,
        vmax_fold_attained_comp Vec3.z (fun a b => rfl) qs q⟩

/-- A two-point scene used to instantiate the bounding-box theorem. -/
def ptsW : List Vec3 := [⟨0, 0, 0⟩, ⟨1, 2, 3⟩]

/-- The bounding box of `ptsW` after scaling by `MODEL_SCALE`. -/
def bW : BBoxQ :=
  ⟨⟨0, 0, 0⟩, ⟨12/10, 24/10, 36/10⟩, ⟨6/10, 12/10, 18/10⟩,
   ⟨12/10, 24/10, 36/10⟩, 24/10⟩

/-- A concrete whole-page state holding `bW`. -/
def appW : AppState :=
  ⟨some bW, ⟨0, 0, 0⟩, ⟨⟨none, 0, false, none⟩, ⟨0, 4, ⟨0, 0, 0⟩⟩⟩⟩

/-- A concrete frame input (all browser readings zero). -/
def inpW : FrameInput := ⟨0, 0, 0, 0, 0, 0, 0⟩

/-- Concrete instance of the bounding-box theorem on the two-point
scene `ptsW`. -/
theorem bbox_cached_and_tight_witness :
    (appFrame 3 0 0 appW inpW).bbox = appW.bbox ∧
    bW.size = ⟨bW.max.x - bW.min.x, bW.max.y - bW.min.y, bW.max.z - bW.min.z⟩ ∧
    bW.center = ⟨(bW.min.x + bW.max.x) / 2, (bW.min.y + bW.max.y) / 2,
      (bW.min.z + bW.max.z) / 2⟩ ∧
    bW.height = bW.size.y ∧
    (∀ p ∈ ptsW, inBox bW (scalePoint MODEL_SCALE p)) ∧
    touchesFaces bW (ptsW.map (scalePoint MODEL_SCALE)) :=
  bbox_cached_and_tight 3 0 0 appW inpW ptsW bW (by
    norm_num [computeBBox, ptsW, bW, scalePoint, vmin, vmax, MODEL_SCALE,
      List.foldl, BBoxQ.mk.injEq, Vec3.mk.injEq])

/-- C8: scroll-offset normalization is total and bounded: the divisor
`max 1 (docH - winH)` is at least one (so there is no division by zero),
the normalized fraction is the stated clamp and always lies in `[0, 1]`,
and the badge percentage `Math.round(scrolled * 100)` is an integer
between 0 and 100 — for every raw reading, including zero or missing
(falsy) heights. -/
theorem scroll_norm_total_bounded
    (scrollY pageYOffset docElH bodyH winH : ℚ) :
    1 ≤ max 1 (jsOr docElH (jsOr bodyH 1) - jsOr winH 1) ∧
    normalizeScrollRaw scrollY pageYOffset docElH bodyH winH =
      min (max (jsOr scrollY (jsOr pageYOffset 0) /
        max 1 (jsOr docElH (jsOr bodyH 1) - jsOr winH 1)) 0) 1 ∧
    0 ≤ normalizeScrollRaw scrollY pageYOffset docElH bodyH winH ∧
    normalizeScrollRaw scrollY pageYOffset docElH bodyH winH ≤ 1 ∧
    0 ≤ scrollBadgePercent scrollY pageYOffset docElH bodyH winH ∧
    scrollBadgePercent scrollY pageYOffset docElH bodyH winH ≤ 100 := by
  have h0 : 0 ≤ normalizeScrollRaw scrollY pageYOffset docElH bodyH winH :=
    le_min (le_max_right _ _) (by norm_num)
  have h1 : normalizeScrollRaw scrollY pageYOffset docElH bodyH winH ≤ 1 :=
    min_le_right _ _
  refine ⟨le_max_left _ _, rfl, h0, h1, ?_, ?_⟩
  · exact Int.floor_nonneg.mpr (by nlinarith)
  · have hlt : normalizeScrollRaw scrollY pageYOffset docElH bodyH winH * 100
        + 5/10 < ((101 : ℤ) : ℚ) := by
      push_cast
      nlinarith
    exact Int.lt_add_one_iff.mp (Int.floor_lt.mpr hlt)

/-- C9: while the 3D asset is absent the scene shows the loading
placeholder and the model otherwise; the waypoint list the camera rig
resolves (`sectionTargets ?? defaults`) always has four entries; and on a
four-entry list both waypoint lookups of the interpolator are in bounds
for every scroll fraction, even outside `[0, 1]` — every per-frame target
computation is total. -/
theorem loading_placeholder_and_totality :
    sceneFor none = SceneContent.loading ∧
    (∀ g, sceneFor (some g) = SceneContent.model) ∧
    (∀ bbox : Option BBoxQ, ∀ z : ℚ,
      ((bbox.map sectionTargetsOfBBox).getD (defaultTargets z)).length = 4) ∧
    (∀ targets : List Waypoint, targets.length = 4 → ∀ t : ℚ,
      camIndex targets t < targets.length ∧
      min (camIndex targets t + 1) (targets.length - 1) < targets.length) := by
  refine ⟨rfl, fun g => rfl, ?_, ?_⟩
  · intro bbox z
    cases bbox with
    | none => rfl
    | some b => rfl
  · intro targets hlen t
    have hs : camScaled targets t = min (max (t * 3) 0) 3 := by
      norm_num [camScaled, hlen]
    have hb : 0 ≤ min (max (t * 3) 0) 3 ∧ min (max (t * 3) 0) 3 ≤ 3 :=
      clamp3_bounds t
    have hfl0 : 0 ≤ Int.floor (min (max (t * 3) 0) 3) :=
      Int.floor_nonneg.mpr hb.1
    have hfl3 : Int.floor (min (max (t * 3) 0) 3) ≤ 3 := by
      have h := Int.floor_le_floor (α := ℚ) hb.2
      simpa using h
    have hidx : camIndex targets t ≤ 3 := by
      rw [camIndex, hs]
      omega
    rw [hlen]
    omega

/-- Concrete instance of the totality statement: the in-bounds fact on
the default waypoint list at scroll fraction `2/3`. -/
theorem loading_placeholder_and_totality_witness :
    camIndex (defaultTargets 4) (2/3) < (defaultTargets 4).length ∧
    min (camIndex (defaultTargets 4) (2/3) + 1)
      ((defaultTargets 4).length - 1) < (defaultTargets 4).length :=
  loading_placeholder_and_totality.2.2.2 (defaultTargets 4) rfl (2/3)

/-- `rigUpdateFallback` never touches `initialZ`. -/
theorem rigUpdateFallback_initialZ (s : RigState) (d now : ℚ) :
    (rigUpdateFallback s d now).initialZ = s.initialZ := by
  rcases s with ⟨lastDrei, lct, fb, iz⟩
  cases lastDrei with
  | none => rfl
  | some last =>
    unfold rigUpdateFallback
    dsimp only
    split_ifs <;> rfl

/-- On the first frame (`initialZ` unset) `CameraRig` keeps the camera Z
and records it as `initialZ`. -/
theorem cameraRigFrame_z_first (st : Option (List Waypoint))
    (s : CamRigState) (inp : FrameInput) (h : s.rig.initialZ = none) :
    (cameraRigFrame st s inp).cam.z = s.cam.z ∧
    (cameraRigFrame st s inp).rig.initialZ = some s.cam.z := by
  unfold cameraRigFrame
  rw [h]
  simp [rigUpdateFallback_initialZ]

/-- On every later frame (`initialZ` set) `CameraRig` pins the camera Z
to the recorded value and keeps the record. -/
theorem cameraRigFrame_z_later (st : Option (List Waypoint))
    (s : CamRigState) (inp : FrameInput) (z0 : ℚ)
    (h : s.rig.initialZ = some z0) :
    (cameraRigFrame st s inp).cam.z = z0 ∧
    (cameraRigFrame st s inp).rig.initialZ = some z0 := by
  unfold cameraRigFrame
  rw [h]
  simp [rigUpdateFallback_initialZ]

/-- Over any run with `initialZ` recorded and the camera Z already at the
recorded value, the camera Z never moves. -/
theorem runFrames_z (st : Option (List Waypoint)) (inps : List FrameInput)
    (s : CamRigState) (z0 : ℚ) (h : s.rig.initialZ = some z0)
    (hc : s.cam.z = z0) : (runFrames st s inps).cam.z = z0 := by
  induction inps generalizing s with
  | nil => exact hc
  | cons inp rest ih =>
    have h2 := cameraRigFrame_z_later st s inp z0 h
    exact ih _ h2.2 h2.1

/-- `List.getD` through a map that preserves `camY` and `lookAt`. -/
theorem getD_map_proj (ts : List Waypoint) (g : Waypoint → Waypoint)
    (hcamY : ∀ w, (g w).camY = w.camY)
    (hlook : ∀ w, (g w).lookAt = w.lookAt) (i : ℕ) :
    ((ts.map g).getD i dfltWp).camY = (ts.getD i dfltWp).camY ∧
    ((ts.map g).getD i dfltWp).lookAt = (ts.getD i dfltWp).lookAt := by
  induction ts generalizing i with
  | nil => exact ⟨rfl, rfl⟩
  | cons w ws ih =>
    cases i with
    | zero => simpa using ⟨hcamY w, hlook w⟩
    | succ j => simpa using ih j

/-- The waypoint interpolator never reads `camZ`: rewriting every
waypoint's `camZ` leaves its output unchanged. -/
theorem camTargetOfT_map_camZ (f : Waypoint → ℚ) (ts : List Waypoint)
    (t : ℚ) :
    camTargetOfT (ts.map fun w => ⟨w.camY, f w, w.lookAt⟩) t =
      camTargetOfT ts t := by
  have hlen : (ts.map fun w => Waypoint.mk w.camY (f w) w.lookAt).length =
      ts.length := List.length_map _ _
  have hscaled : camScaled (ts.map fun w => Waypoint.mk w.camY (f w) w.lookAt) t
      = camScaled ts t := by
    unfold camScaled
    rw [hlen]
  have hidx : camIndex (ts.map fun w => Waypoint.mk w.camY (f w) w.lookAt) t
      = camIndex ts t := by
    unfold camIndex
    rw [hscaled]
  obtain ⟨h1c, h1l⟩ := getD_map_proj ts
    (fun w => Waypoint.mk w.camY (f w) w.lookAt) (fun w => rfl) (fun w => rfl)
    (camIndex ts t)
  obtain ⟨h2c, h2l⟩ := getD_map_proj ts
    (fun w => Waypoint.mk w.camY (f w) w.lookAt) (fun w => rfl) (fun w => rfl)
    (min (camIndex ts t + 1) (ts.length - 1))
  simp only [camTargetOfT, hscaled, hidx, hlen]
  rw [h1c, h1l, h2c, h2l]

/-- The full `CameraRig` frame never reads `camZ` either. -/
theorem cameraRigFrame_map_camZ (f : Waypoint → ℚ) (ts : List Waypoint)
    (s : CamRigState) (inp : FrameInput) :
    cameraRigFrame (some (ts.map fun w => ⟨w.camY, f w, w.lookAt⟩)) s inp =
      cameraRigFrame (some ts) s inp := by
  simp only [cameraRigFrame, Option.getD_some]
  rw [camTargetOfT_map_camZ]

/-- C10: the camera Z is captured on the first frame and reassigned to
that same value on every frame thereafter, over any frame sequence; the
camera rig's output is invariant under arbitrary rewrites of the
per-waypoint `camZ` fields (they are never read); and those unused
`camZ` values derived from the bounding box are exactly
`baseZ * 0.9 / 0.75 / 0.65 / 0.55`. -/
theorem camera_z_frozen_after_first_frame :
    (∀ st (s : CamRigState) inp, s.rig.initialZ = none →
      (cameraRigFrame st s inp).cam.z = s.cam.z) ∧
    (∀ st (s : CamRigState) inp z0, s.rig.initialZ = some z0 →
      (cameraRigFrame st s inp).cam.z = z0) ∧
    (∀ st (s : CamRigState) inp inps, s.rig.initialZ = none →
      (runFrames st s (inp :: inps)).cam.z = s.cam.z) ∧
    (∀ (f : Waypoint → ℚ) (ts : List Waypoint) (s : CamRigState) inp,
      cameraRigFrame (some (ts.map fun w => ⟨w.camY, f w, w.lookAt⟩)) s inp =
        cameraRigFrame (some ts) s inp) ∧
    (∀ b : BBoxQ, (sectionTargetsOfBBox b).map (fun w => w.camZ) =
      [max 3 (jsOr b.height (max 1 (b.max.y - b.min.y)) * 3) * (9/10),
       max 3 (jsOr b.height (max 1 (b.max.y - b.min.y)) * 3) * (75/100),
       max 3 (jsOr b.height (max 1 (b.max.y - b.min.y)) * 3) * (65/100),
       max 3 (jsOr b.height (max 1 (b.max.y - b.min.y)) * 3) * (55/100)]) := by
  refine ⟨?_, ?_, ?_, ?_, ?_⟩
  · intro st s inp h
    exact (cameraRigFrame_z_first st s inp h).1
  · intro st s inp z0 h
    exact (cameraRigFrame_z_later st s inp z0 h).1
  · intro st s inp inps h
    have h1 := cameraRigFrame_z_first st s inp h
    exact runFrames_z st inps _ s.cam.z h1.2 h1.1
  · exact cameraRigFrame_map_camZ
  · intro b
    simp [sectionTargetsOfBBox]

/-- Concrete instance of the frozen-Z statement: a three-frame run from
an unset `initialZ` leaves the camera Z at its starting value `4`. -/
theorem camera_z_frozen_after_first_frame_witness :
    (cameraRigFrame none ⟨⟨none, 0, false, none⟩, ⟨0, 4, ⟨0, 0, 0⟩⟩⟩ inpW).cam.z
      = (⟨⟨none, 0, false, none⟩, ⟨0, 4, ⟨0, 0, 0⟩⟩⟩ : CamRigState).cam.z ∧
    (runFrames none ⟨⟨none, 0, false, none⟩, ⟨0, 4, ⟨0, 0, 0⟩⟩⟩
        (inpW :: [inpW, inpW])).cam.z
      = (⟨⟨none, 0, false, none⟩, ⟨0, 4, ⟨0, 0, 0⟩⟩⟩ : CamRigState).cam.z :=
  ⟨camera_z_frozen_after_first_frame.1 none _ inpW rfl,
   camera_z_frozen_after_first_frame.2.2.1 none _ inpW [inpW, inpW] rfl⟩

end Anatomy
